import Mathlib

/-!
Shallow embedding of the layout engine in src/cairo-symbol.cc.

The cairo text-measurement backend is abstracted as a function from
strings to text extents (width, height, y_bearing), the three fields the
program reads.  Coordinates are rationals: the C++ double arithmetic on
the values appearing here is exact, so rationals model it faithfully.
C++ conversions from double to int truncate toward zero; `double2int`
reproduces that.  Drawing is modelled as the list of primitives emitted
to the cairo context: text paints (carrying the source color in effect
when shown), stroked stem segments (carrying their line width) and
stroked rectangles.  The save/restore scoping in the C++ code means the
gray type-label color and the stem line width never leak between
primitives, which is why each emitted primitive can carry its own
color/width; close_path emits nothing and is omitted.
-/

namespace CairoSymbol

/-- Fields of a cairo TextExtents record that the program reads. -/
structure TextExtents where
  width : ℚ
  height : ℚ
  y_bearing : ℚ
  deriving DecidableEq, Repr

/-- The abstract text-measurement backend (cairo get_text_extents). -/
abbrev Measure := String → TextExtents

/-- C++ conversion from double to int: truncation toward zero. -/
def double2int (q : ℚ) : ℤ := if 0 ≤ q then ⌊q⌋ else -⌊-q⌋

/-- Pin::kStemLength. -/
def kStemLength : ℚ := 15

/-- Pin::kWireStemWidth. -/
def kWireStemWidth : ℚ := 1

/-- Pin::kBusStemWidth. -/
def kBusStemWidth : ℚ := 2

/-- Pin::kTextPadding. -/
def kTextPadding : ℚ := 5

/-- Section::kTextSeparator. -/
def kTextSeparator : ℚ := 10

/-- Section::kTopBottomPadding. -/
def kTopBottomPadding : ℚ := 10

/-- Section::kBorderThickness (declared in the source, never used). -/
def kBorderThickness : ℚ := 3 / 2

/-- Section::kPinSpacing. -/
def kPinSpacing : ℚ := 5

/-- Symbol::kNameSpacing. -/
def kNameSpacing : ℚ := 5

/-- enum PinDirection. -/
inductive PinDirection where
  | IN
  | OUT
  | INOUT
  deriving DecidableEq, Repr

/-- class Pin, fields in declaration order. -/
structure Pin where
  direction : PinDirection
  name : String
  type : String
  is_bus : Bool
  deriving DecidableEq, Repr

/-- Cairo::Rectangle (the four double fields used by the program). -/
structure Rectangle where
  x : ℚ
  y : ℚ
  width : ℚ
  height : ℚ
  deriving DecidableEq, Repr

/-- One primitive emitted to the cairo context.  showText carries the
source color in effect (r, g, b), the current point at which the text
is shown (its left edge) and the string; line carries its endpoints and
the line width in effect at the stroke; strokeRect is a stroked
rectangle. -/
inductive DrawOp where
  | showText (r g b : ℚ) (x y : ℚ) (text : String)
  | line (x1 y1 x2 y2 lineWidth : ℚ)
  | strokeRect (x y width height : ℚ)
  deriving DecidableEq, Repr

/-- drawRTLText: measures the string and shows it shifted left by its
width, so the text ends at the given point.  Color arguments carry the
source color in effect at the call. -/
def drawRTLText (m : Measure) (r g b x y : ℚ) (str : String) : DrawOp :=
  DrawOp.showText r g b (x - (m str).width) y str

/-- Pin::draw.  The C++ draws the name (black, the default source), then
the stem with the bus- or wire-stem line width, then the type label with
source color (0.5, 0.5, 0.5); each part is wrapped in save/restore so no
state leaks.  Only pos.x and pos.y of the rectangle are read. -/
def Pin.draw (m : Measure) (p : Pin) (pos : Rectangle) : List DrawOp :=
  let nameOp :=
    if p.direction = PinDirection.IN then
      DrawOp.showText 0 0 0 (pos.x + kTextPadding) pos.y p.name
    else
      drawRTLText m 0 0 0 (pos.x - kTextPadding) pos.y p.name
  let extents := m p.name
  let stemWidth := if p.is_bus then kBusStemWidth else kWireStemWidth
  let stemOp :=
    if p.direction = PinDirection.IN then
      DrawOp.line pos.x (pos.y + extents.y_bearing / 2)
        (pos.x - kStemLength) (pos.y + extents.y_bearing / 2) stemWidth
    else
      DrawOp.line pos.x (pos.y + extents.y_bearing / 2)
        (pos.x + kStemLength) (pos.y + extents.y_bearing / 2) stemWidth
  let typeOp :=
    if p.direction = PinDirection.IN then
      drawRTLText m (1/2) (1/2) (1/2) (pos.x - kTextPadding - kStemLength) pos.y p.type
    else
      DrawOp.showText (1/2) (1/2) (1/2) (pos.x + kTextPadding + kStemLength) pos.y p.type
  [nameOp, stemOp, typeOp]

/-- Pin::innerWidth: kTextPadding plus the measured width of the name,
computed in double and returned as int. -/
def Pin.innerWidth (m : Measure) (p : Pin) : ℤ :=
  double2int (kTextPadding + (m p.name).width)

/-- Pin::outerWidth: kStemLength plus kTextPadding plus the measured
width of the type, computed in double and returned as int. -/
def Pin.outerWidth (m : Measure) (p : Pin) : ℤ :=
  double2int (kStemLength + kTextPadding + (m p.type).width)

/-- Pin::height (static): the measured height of the reference string
"Hello world", returned as int. -/
def Pin.height (m : Measure) : ℤ :=
  double2int (m ("Hello world")).height

/-- class Section. -/
structure Section where
  pins : List Pin
  name : String
  deriving DecidableEq, Repr

/-- Section::addPin: appends to the pin sequence. -/
def Section.addPin (s : Section) (p : Pin) : Section :=
  { s with pins := s.pins ++ [p] }

/-- Section::rows: one pass over the pins counting IN pins (left_rows)
and all other pins (right_rows), returning the larger count. -/
def Section.rows (s : Section) : ℤ :=
  let lr := s.pins.foldl
    (fun (lr : ℤ × ℤ) p =>
      if p.direction = PinDirection.IN then (lr.1 + 1, lr.2) else (lr.1, lr.2 + 1))
    (0, 0)
  if lr.1 > lr.2 then lr.1 else lr.2

/-- The pin-drawing loop of Section::draw: the running rectangle starts
at the given y, and for each pin first advances by Pin::height, then
draws the pin there, then advances by kPinSpacing.  The width and height
fields of the running rectangle stay 0 (value-initialized in the C++
aggregate); Pin::draw never reads them. -/
def drawPins (m : Measure) (x : ℚ) : ℚ → List Pin → List DrawOp
  | _, [] => []
  | y, p :: rest =>
    let y1 := y + ((Pin.height m : ℤ) : ℚ)
    Pin.draw m p ⟨x, y1, 0, 0⟩ ++ drawPins m x (y1 + kPinSpacing) rest

/-- Section::draw: strokes the border rectangle at pos, then copies the
IN pins into left_pins and all other pins into right_pins (copy_if, so
each column preserves the stored order) and walks the left column at
x = pos.x and the right column at x = pos.x + pos.width, both starting
at pos.y + kTopBottomPadding. -/
def Section.draw (m : Measure) (s : Section) (pos : Rectangle) : List DrawOp :=
  let left_pins := s.pins.filter (fun p => p.direction == PinDirection.IN)
  let right_pins := s.pins.filter (fun p => p.direction != PinDirection.IN)
  DrawOp.strokeRect pos.x pos.y pos.width pos.height ::
    (drawPins m pos.x (pos.y + kTopBottomPadding) left_pins ++
      drawPins m (pos.x + pos.width) (pos.y + kTopBottomPadding) right_pins)

/-- Section::height: kPinSpacing*(rows()-1) + rows()*Pin::height() +
2*kTopBottomPadding, computed in double and returned as int. -/
def Section.height (m : Measure) (s : Section) : ℤ :=
  double2int (kPinSpacing * ((s.rows : ℤ) - 1 : ℤ)
    + ((s.rows : ℤ) : ℚ) * ((Pin.height m : ℤ) : ℚ) + 2 * kTopBottomPadding)

/-- Section::minInnerWidth: one pass with two accumulators; an IN pin
wider than the left accumulator replaces it, otherwise (else-if) an OUT
pin wider than the right accumulator replaces that one; the result is
left + kTextSeparator + right, computed in double and returned as
int. -/
def Section.minInnerWidth (m : Measure) (s : Section) : ℤ :=
  let lr := s.pins.foldl
    (fun (lr : ℤ × ℤ) p =>
      if Pin.innerWidth m p > lr.1 ∧ p.direction = PinDirection.IN then
        (Pin.innerWidth m p, lr.2)
      else if Pin.innerWidth m p > lr.2 ∧ p.direction = PinDirection.OUT then
        (lr.1, Pin.innerWidth m p)
      else lr)
    (0, 0)
  double2int ((lr.1 : ℚ) + kTextSeparator + (lr.2 : ℚ))

/-- Section::minOuterWidth: one pass keeping the largest outerWidth over
all pins, starting from 0. -/
def Section.minOuterWidth (m : Measure) (s : Section) : ℤ :=
  s.pins.foldl
    (fun acc p => if Pin.outerWidth m p > acc then Pin.outerWidth m p else acc) 0

/-- class Symbol. -/
structure Symbol where
  sections : List Section
  name : String
  deriving DecidableEq, Repr

/-- Symbol::addSection: appends to the section sequence. -/
def Symbol.addSection (sym : Symbol) (s : Section) : Symbol :=
  { sym with sections := sym.sections ++ [s] }

/-- The first loop of Symbol::draw: one pass over the sections keeping
the largest minInnerWidth (first component) and the largest
minOuterWidth (second component), both starting from 0. -/
def symbolWidths (m : Measure) (sym : Symbol) : ℤ × ℤ :=
  sym.sections.foldl
    (fun (acc : ℤ × ℤ) s =>
      ((if Section.minInnerWidth m s > acc.1 then Section.minInnerWidth m s else acc.1),
        (if Section.minOuterWidth m s > acc.2 then Section.minOuterWidth m s else acc.2)))
    (0, 0)

/-- Symbol::draw: computes the shared innerWidth and outerWidth, paints
the symbol name (black) centered between outerWidth and
outerWidth + innerWidth with its baseline at the measured name height,
then draws every section at the rectangle with x = outerWidth,
y = name height + kNameSpacing, width = innerWidth and height =
the section own height.  The y coordinate is the same expression for
every section: the loop never advances it. -/
def Symbol.draw (m : Measure) (sym : Symbol) : List DrawOp :=
  let innerWidth := (symbolWidths m sym).1
  let outerWidth := (symbolWidths m sym).2
  let extents := m sym.name
  DrawOp.showText 0 0 0
      ((outerWidth : ℚ) + ((innerWidth : ℚ) - extents.width) / 2)
      extents.height sym.name ::
    (sym.sections.map (fun s =>
      Section.draw m s
        ⟨(outerWidth : ℚ), extents.height + kNameSpacing,
          (innerWidth : ℚ), ((Section.height m s : ℤ) : ℚ)⟩)).flatten

/-- Observation: the stroked rectangles of a trace, in order, as
(x, y, width, height) tuples. -/
def rectOps : List DrawOp → List (ℚ × ℚ × ℚ × ℚ)
  | [] => []
  | DrawOp.strokeRect x y w h :: rest => (x, y, w, h) :: rectOps rest
  | _ :: rest => rectOps rest

/-- Observation: the text paints of a trace done in the default black
source color, in order, as (x, y, string) triples.  Pin names and the
symbol name are painted black; pin type labels are painted gray and are
excluded. -/
def nameTexts : List DrawOp → List (ℚ × ℚ × String)
  | [] => []
  | DrawOp.showText r g b x y s :: rest =>
    if r = 0 ∧ g = 0 ∧ b = 0 then (x, y, s) :: nameTexts rest else nameTexts rest
  | _ :: rest => nameTexts rest

/-- Observation: just the strings of the black text paints, in order. -/
def drawnNames (ops : List DrawOp) : List String :=
  (nameTexts ops).map (fun e => e.2.2)

/-- Observation: whether a primitive is a stroked line (a pin stem). -/
def isLine : DrawOp → Bool
  | DrawOp.line _ _ _ _ _ => true
  | _ => false

/-- The running-maximum loop shape used by Section::minOuterWidth,
Section::minInnerWidth and the width loop of Symbol::draw: start from
an accumulator and replace it by every strictly larger element. -/
def foldMax (l : List ℤ) (a : ℤ) : ℤ :=
  l.foldl (fun acc v => if v > acc then v else acc) a

/-- Reflection of a primitive about the vertical axis x = a.  A shown
text occupies the span from its current point x to x plus its measured
width, so its mirror starts at 2a - x - width; line endpoints and
rectangle spans reflect likewise. -/
def mirrorOp (a : ℚ) (m : Measure) : DrawOp → DrawOp
  | DrawOp.showText r g b x y s => DrawOp.showText r g b (2 * a - x - (m s).width) y s
  | DrawOp.line x1 y1 x2 y2 w => DrawOp.line (2 * a - x1) y1 (2 * a - x2) y2 w
  | DrawOp.strokeRect x y w h => DrawOp.strokeRect (2 * a - x - w) y w h

/-- A concrete deterministic measurement backend for the test fixtures:
every string is 50 units wide, the line height is 11 and the vertical
bearing is -8. -/
def mTest : Measure := fun _ => ⟨50, 11, -8⟩

/-- A measurement backend whose strings all have width 0 (as the empty
string does in cairo), with the same line height as mTest. -/
def mZero : Measure := fun _ => ⟨0, 11, -8⟩

/-- Pin pin1 of main(). -/
def pinFoo : Pin := ⟨PinDirection.IN, "i_foo", "logic [15:0]", true⟩

/-- Pin pin2 of main(). -/
def pinBar : Pin := ⟨PinDirection.OUT, "o_bar", "logic", false⟩

/-- Pin pin3 of main(). -/
def pinFoobar : Pin := ⟨PinDirection.IN, "i_foobar", "logic", false⟩

/-- Pin pin4 of main(). -/
def pinBarfoo : Pin := ⟨PinDirection.IN, "i_barfoo", "logic [15:0]", true⟩

/-- The section built in main(): the four pins in insertion order. -/
def mainSection : Section := ⟨[pinFoo, pinBar, pinFoobar, pinBarfoo], ""⟩

/-- A one-pin section used by the two-section fixture. -/
def secOne : Section := ⟨[⟨PinDirection.IN, "a", "t", false⟩], ""⟩

/-- An empty section used by the two-section fixture. -/
def secTwo : Section := ⟨[], ""⟩

/-- A symbol with two sections of different heights and widths. -/
def symTwo : Symbol := ⟨[secOne, secTwo], "S"⟩

/-- Four pins in the A(IN), B(OUT), C(IN), D(OUT) pattern. -/
def pinA : Pin := ⟨PinDirection.IN, "pa", "t", false⟩

/-- Pin B of the A(IN), B(OUT), C(IN), D(OUT) pattern. -/
def pinB : Pin := ⟨PinDirection.OUT, "pb", "t", false⟩

/-- Pin C of the A(IN), B(OUT), C(IN), D(OUT) pattern. -/
def pinC : Pin := ⟨PinDirection.IN, "pc", "t", true⟩

/-- Pin D of the A(IN), B(OUT), C(IN), D(OUT) pattern. -/
def pinD : Pin := ⟨PinDirection.OUT, "pd", "t", false⟩

/-- A section holding the A(IN), B(OUT), C(IN), D(OUT) pins. -/
def secABCD : Section := ⟨[pinA, pinB, pinC, pinD], ""⟩

/-- A pin with an empty name and an empty type. -/
def pinEmpty : Pin := ⟨PinDirection.OUT, "", "", true⟩

/-- double2int is the identity on integers. -/
lemma double2int_intCast (n : ℤ) : double2int (n : ℚ) = n := by
  unfold double2int
  split
  · exact Int.floor_intCast n
  · rw [← Int.cast_neg, Int.floor_intCast]
    ring

/-- double2int of a nonnegative value is nonnegative. -/
lemma double2int_nonneg (q : ℚ) (h : 0 ≤ q) : 0 ≤ double2int q := by
  unfold double2int
  rw [if_pos h]
  exact Int.floor_nonneg.mpr h

/-- double2int stays at or above any integer below its argument. -/
lemma le_double2int (n : ℤ) (q : ℚ) (hn : (0 : ℚ) ≤ n) (h : (n : ℚ) ≤ q) :
    n ≤ double2int q := by
  unfold double2int
  rw [if_pos (le_trans hn h)]
  exact Int.le_floor.mpr h

lemma foldMax_nil (a : ℤ) : foldMax [] a = a := rfl

lemma foldMax_cons (v : ℤ) (l : List ℤ) (a : ℤ) :
    foldMax (v :: l) a = foldMax l (if v > a then v else a) := rfl

lemma init_le_foldMax (l : List ℤ) (a : ℤ) : a ≤ foldMax l a := by
  induction l generalizing a with
  | nil => exact le_refl a
  | cons v l ih =>
    rw [foldMax_cons]
    refine le_trans ?_ (ih _)
    split <;> omega

lemma le_foldMax (l : List ℤ) (a x : ℤ) (hx : x ∈ l) : x ≤ foldMax l a := by
  induction l generalizing a with
  | nil => cases hx
  | cons v l ih =>
    rw [foldMax_cons]
    rcases List.mem_cons.mp hx with h | h
    · subst h
      refine le_trans ?_ (init_le_foldMax _ _)
      split <;> omega
    · exact ih _ h

lemma foldMax_mem (l : List ℤ) (a : ℤ) : foldMax l a ∈ a :: l := by
  induction l generalizing a with
  | nil => exact List.mem_singleton.mpr rfl
  | cons v l ih =>
    rw [foldMax_cons]
    rcases List.mem_cons.mp (ih (if v > a then v else a)) with h | h
    · rw [h]
      split
      · exact List.mem_cons_of_mem _ (List.mem_cons_self _ _)
      · exact List.mem_cons_self _ _
    · exact List.mem_cons_of_mem _ (List.mem_cons_of_mem _ h)

/-- The two counters of Section::rows count the IN pins and the other
pins. -/
lemma rows_fold (ps : List Pin) (a b : ℤ) :
    ps.foldl
      (fun (lr : ℤ × ℤ) p =>
        if p.direction = PinDirection.IN then (lr.1 + 1, lr.2) else (lr.1, lr.2 + 1))
      (a, b)
    = (a + (ps.countP (fun p => p.direction == PinDirection.IN) : ℤ),
        b + (ps.countP (fun p => p.direction != PinDirection.IN) : ℤ)) := by
  induction ps generalizing a b with
  | nil => simp
  | cons p ps ih =>
    rw [List.foldl_cons]
    dsimp only
    by_cases h : p.direction = PinDirection.IN
    · have h1 : (p.direction == PinDirection.IN) = true := by simpa using h
      have h2 : (p.direction != PinDirection.IN) = false := by simpa using h
      simp [h, h1, h2, List.countP_cons, ih]
      omega
    · have h1 : (p.direction == PinDirection.IN) = false := by simpa using h
      have h2 : (p.direction != PinDirection.IN) = true := by simpa using h
      simp [h, h1, h2, List.countP_cons, ih]
      omega

/-- Section::rows is the larger of the IN-pin count and the other-pin
count. -/
lemma rows_eq_counts (s : Section) :
    s.rows = max ((s.pins.countP (fun p => p.direction == PinDirection.IN) : ℤ))
      ((s.pins.countP (fun p => p.direction != PinDirection.IN) : ℤ)) := by
  unfold Section.rows
  rw [rows_fold]
  dsimp only
  simp only [zero_add]
  rw [max_def]
  split <;> split <;> omega

/-- Section::height as integer arithmetic: the double intermediate is
integer-valued, so the int conversion is exact. -/
lemma height_eq (m : Measure) (s : Section) :
    Section.height m s = 5 * (s.rows - 1) + s.rows * Pin.height m + 20 := by
  unfold Section.height
  have h : kPinSpacing * ((s.rows - 1 : ℤ) : ℚ) + (s.rows : ℚ) * ((Pin.height m : ℤ) : ℚ)
      + 2 * kTopBottomPadding
      = ((5 * (s.rows - 1) + s.rows * Pin.height m + 20 : ℤ) : ℚ) := by
    unfold kPinSpacing kTopBottomPadding
    push_cast
    ring
  rw [h, double2int_intCast]

/-- The two accumulators of Section::minInnerWidth track the largest
innerWidth of the IN pins and of the strictly-OUT pins seen so far. -/
lemma minInner_fold (m : Measure) (ps : List Pin) (a b : ℤ) :
    ps.foldl
      (fun (lr : ℤ × ℤ) p =>
        if Pin.innerWidth m p > lr.1 ∧ p.direction = PinDirection.IN then
          (Pin.innerWidth m p, lr.2)
        else if Pin.innerWidth m p > lr.2 ∧ p.direction = PinDirection.OUT then
          (lr.1, Pin.innerWidth m p)
        else lr)
      (a, b)
    = (foldMax ((ps.filter (fun p => p.direction == PinDirection.IN)).map (Pin.innerWidth m)) a,
        foldMax ((ps.filter (fun p => p.direction == PinDirection.OUT)).map (Pin.innerWidth m)) b) := by
  induction ps generalizing a b with
  | nil => simp [foldMax]
  | cons p ps ih =>
    rw [List.foldl_cons]
    dsimp only
    rcases hd : p.direction with _ | _ | _
    · by_cases hgt : Pin.innerWidth m p > a <;>
        simp [hd, hgt, List.filter_cons, foldMax_cons, ih]
    · by_cases hgt : Pin.innerWidth m p > b <;>
        simp [hd, hgt, List.filter_cons, foldMax_cons, ih]
    · simp [hd, List.filter_cons, ih]

/-- Section::minInnerWidth as integer arithmetic over the two column
maxima. -/
lemma minInnerWidth_eq (m : Measure) (s : Section) :
    Section.minInnerWidth m s =
      foldMax ((s.pins.filter (fun p => p.direction == PinDirection.IN)).map (Pin.innerWidth m)) 0
      + 10
      + foldMax ((s.pins.filter (fun p => p.direction == PinDirection.OUT)).map (Pin.innerWidth m)) 0 := by
  unfold Section.minInnerWidth
  rw [minInner_fold]
  dsimp only
  have h : ((foldMax ((s.pins.filter (fun p => p.direction == PinDirection.IN)).map (Pin.innerWidth m)) 0 : ℤ) : ℚ)
      + kTextSeparator
      + ((foldMax ((s.pins.filter (fun p => p.direction == PinDirection.OUT)).map (Pin.innerWidth m)) 0 : ℤ) : ℚ)
      = ((foldMax ((s.pins.filter (fun p => p.direction == PinDirection.IN)).map (Pin.innerWidth m)) 0
          + 10
          + foldMax ((s.pins.filter (fun p => p.direction == PinDirection.OUT)).map (Pin.innerWidth m)) 0 : ℤ) : ℚ) := by
    unfold kTextSeparator
    push_cast
    ring
  rw [h, double2int_intCast]

/-- Section::minOuterWidth as a running maximum over all pins. -/
lemma minOuterWidth_eq (m : Measure) (s : Section) :
    Section.minOuterWidth m s = foldMax (s.pins.map (Pin.outerWidth m)) 0 := by
  unfold Section.minOuterWidth foldMax
  rw [List.foldl_map]

lemma minOuterWidth_nonneg (m : Measure) (s : Section) :
    0 ≤ Section.minOuterWidth m s := by
  rw [minOuterWidth_eq]
  exact init_le_foldMax _ _

lemma minInnerWidth_nonneg (m : Measure) (s : Section) :
    0 ≤ Section.minInnerWidth m s := by
  rw [minInnerWidth_eq]
  have h1 := init_le_foldMax ((s.pins.filter (fun p => p.direction == PinDirection.IN)).map (Pin.innerWidth m)) 0
  have h2 := init_le_foldMax ((s.pins.filter (fun p => p.direction == PinDirection.OUT)).map (Pin.innerWidth m)) 0
  omega

/-- The width loop of Symbol::draw computes the running maxima of the
section minInnerWidth and minOuterWidth values. -/
lemma symbolWidths_fold (m : Measure) (l : List Section) (a b : ℤ) :
    l.foldl
      (fun (acc : ℤ × ℤ) s =>
        ((if Section.minInnerWidth m s > acc.1 then Section.minInnerWidth m s else acc.1),
          (if Section.minOuterWidth m s > acc.2 then Section.minOuterWidth m s else acc.2)))
      (a, b)
    = (foldMax (l.map (Section.minInnerWidth m)) a, foldMax (l.map (Section.minOuterWidth m)) b) := by
  induction l generalizing a b with
  | nil => simp [foldMax]
  | cons s l ih =>
    simp only [List.foldl_cons, List.map_cons, foldMax_cons]
    exact ih _ _

lemma symbolWidths_eq (m : Measure) (sym : Symbol) :
    symbolWidths m sym
      = (foldMax (sym.sections.map (Section.minInnerWidth m)) 0,
          foldMax (sym.sections.map (Section.minOuterWidth m)) 0) := by
  unfold symbolWidths
  rw [symbolWidths_fold]

lemma rectOps_append (l1 l2 : List DrawOp) :
    rectOps (l1 ++ l2) = rectOps l1 ++ rectOps l2 := by
  induction l1 with
  | nil => rfl
  | cons op l ih => cases op <;> simp [rectOps, ih]

lemma nameTexts_append (l1 l2 : List DrawOp) :
    nameTexts (l1 ++ l2) = nameTexts l1 ++ nameTexts l2 := by
  induction l1 with
  | nil => rfl
  | cons op l ih =>
    cases op with
    | showText r g b x y s =>
      simp only [List.cons_append, nameTexts]
      split <;> simp [ih]
    | line x1 y1 x2 y2 w => simp [nameTexts, ih]
    | strokeRect x y w h => simp [nameTexts, ih]

/-- Pin::draw strokes no rectangle. -/
lemma rectOps_pin (m : Measure) (p : Pin) (pos : Rectangle) :
    rectOps (Pin.draw m p pos) = [] := by
  rcases hd : p.direction <;> simp [Pin.draw, drawRTLText, hd, rectOps]

/-- The pin walk of Section::draw strokes no rectangle. -/
lemma rectOps_drawPins (m : Measure) (x : ℚ) (y : ℚ) (ps : List Pin) :
    rectOps (drawPins m x y ps) = [] := by
  induction ps generalizing y with
  | nil => rfl
  | cons p ps ih => simp [drawPins, rectOps_append, rectOps_pin, ih]

/-- Section::draw strokes exactly its border rectangle, at the given
rectangle. -/
lemma rectOps_section (m : Measure) (s : Section) (pos : Rectangle) :
    rectOps (Section.draw m s pos) = [(pos.x, pos.y, pos.width, pos.height)] := by
  simp [Section.draw, rectOps, rectOps_append, rectOps_drawPins]

/-- The rectangles stroked by Symbol::draw: one border per section, all
at x = the computed outerWidth, y = measured name height + kNameSpacing,
width = the computed innerWidth, and each with the section own
height. -/
lemma rectOps_symbol (m : Measure) (sym : Symbol) :
    rectOps (Symbol.draw m sym) =
      sym.sections.map (fun s =>
        (((symbolWidths m sym).2 : ℚ), (m sym.name).height + kNameSpacing,
          ((symbolWidths m sym).1 : ℚ), ((Section.height m s : ℤ) : ℚ))) := by
  unfold Symbol.draw
  simp only [rectOps]
  induction sym.sections with
  | nil => rfl
  | cons s l ih =>
    simp only [List.map_cons, List.flatten_cons, rectOps_append, rectOps_section, ih,
      List.cons_append, List.nil_append]

/-- The black text of Pin::draw is exactly the pin name, at the anchor
y, starting kTextPadding right of the anchor for an IN pin and ending
kTextPadding left of it otherwise. -/
lemma nameTexts_pin (m : Measure) (p : Pin) (pos : Rectangle) :
    nameTexts (Pin.draw m p pos) =
      [((if p.direction = PinDirection.IN then pos.x + kTextPadding
          else pos.x - kTextPadding - (m p.name).width), pos.y, p.name)] := by
  rcases hd : p.direction with _ | _ | _
  · norm_num [Pin.draw, drawRTLText, hd, nameTexts]
  · norm_num [Pin.draw, drawRTLText, hd, nameTexts]
    rw [if_neg (by decide : ¬(PinDirection.OUT = PinDirection.IN))]
  · norm_num [Pin.draw, drawRTLText, hd, nameTexts]
    rw [if_neg (by decide : ¬(PinDirection.INOUT = PinDirection.IN))]

lemma drawnNames_append (l1 l2 : List DrawOp) :
    drawnNames (l1 ++ l2) = drawnNames l1 ++ drawnNames l2 := by
  unfold drawnNames
  rw [nameTexts_append, List.map_append]

/-- The pin walk renders exactly the names of its pins, in order. -/
lemma drawnNames_drawPins (m : Measure) (x : ℚ) (y : ℚ) (ps : List Pin) :
    drawnNames (drawPins m x y ps) = ps.map Pin.name := by
  induction ps generalizing y with
  | nil => rfl
  | cons p ps ih =>
    simp only [drawPins, drawnNames_append, ih, List.map_cons]
    simp [drawnNames, nameTexts_pin]

/-- The names rendered by Section::draw: first the IN pins in stored
order, then the remaining pins in stored order. -/
lemma drawnNames_section (m : Measure) (s : Section) (pos : Rectangle) :
    drawnNames (Section.draw m s pos) =
      ((s.pins.filter (fun p => p.direction == PinDirection.IN)).map Pin.name)
        ++ ((s.pins.filter (fun p => p.direction != PinDirection.IN)).map Pin.name) := by
  unfold Section.draw
  have hrect : drawnNames (DrawOp.strokeRect pos.x pos.y pos.width pos.height
      :: (drawPins m pos.x (pos.y + kTopBottomPadding)
            (s.pins.filter (fun p => p.direction == PinDirection.IN)) ++
          drawPins m (pos.x + pos.width) (pos.y + kTopBottomPadding)
            (s.pins.filter (fun p => p.direction != PinDirection.IN))))
      = drawnNames (drawPins m pos.x (pos.y + kTopBottomPadding)
            (s.pins.filter (fun p => p.direction == PinDirection.IN)) ++
          drawPins m (pos.x + pos.width) (pos.y + kTopBottomPadding)
            (s.pins.filter (fun p => p.direction != PinDirection.IN))) := by
    simp [drawnNames, nameTexts]
  rw [hrect, drawnNames_append, drawnNames_drawPins, drawnNames_drawPins]

/-- Pin::draw emits exactly one stroked line, the stem. -/
lemma countLine_pin (m : Measure) (p : Pin) (pos : Rectangle) :
    (Pin.draw m p pos).countP isLine = 1 := by
  rcases hd : p.direction <;> simp [Pin.draw, drawRTLText, hd, isLine, List.countP_cons]

/-- With a nonnegative measured width, innerWidth is at least
kTextPadding = 5. -/
lemma five_le_innerWidth (m : Measure) (p : Pin) (hw : 0 ≤ (m p.name).width) :
    5 ≤ Pin.innerWidth m p := by
  unfold Pin.innerWidth
  refine le_double2int 5 _ (by norm_num) ?_
  unfold kTextPadding
  push_cast
  linarith

/-- Characterization of the running maximum over one direction column
of innerWidth values: it bounds every pin of that direction, is
attained by one of them when the column is nonempty, and is 0 when the
column is empty. -/
lemma column_foldMax_spec (m : Measure) (ps : List Pin) (d : PinDirection)
    (hw : ∀ str, 0 ≤ (m str).width) :
    (∀ p ∈ ps, p.direction = d →
        Pin.innerWidth m p
          ≤ foldMax ((ps.filter (fun p => p.direction == d)).map (Pin.innerWidth m)) 0)
      ∧ ((∃ p ∈ ps, p.direction = d) →
          ∃ p ∈ ps, p.direction = d
            ∧ foldMax ((ps.filter (fun p => p.direction == d)).map (Pin.innerWidth m)) 0
                = Pin.innerWidth m p)
      ∧ ((∀ p ∈ ps, p.direction ≠ d) →
          foldMax ((ps.filter (fun p => p.direction == d)).map (Pin.innerWidth m)) 0 = 0) := by
  refine ⟨?_, ?_, ?_⟩
  · intro p hp hpd
    exact le_foldMax _ 0 _ (List.mem_map_of_mem _ (List.mem_filter.mpr ⟨hp, by simp [hpd]⟩))
  · rintro ⟨p0, hp0, hd0⟩
    have hmem0 : Pin.innerWidth m p0
        ∈ (ps.filter (fun p => p.direction == d)).map (Pin.innerWidth m) :=
      List.mem_map_of_mem _ (List.mem_filter.mpr ⟨hp0, by simp [hd0]⟩)
    have hle := le_foldMax _ 0 _ hmem0
    have h5 := five_le_innerWidth m p0 (hw p0.name)
    rcases List.mem_cons.mp
        (foldMax_mem ((ps.filter (fun p => p.direction == d)).map (Pin.innerWidth m)) 0)
      with h0 | hmem
    · exact absurd hle (by omega)
    · obtain ⟨q, hq, heq⟩ := List.mem_map.mp hmem
      obtain ⟨hq1, hq2⟩ := List.mem_filter.mp hq
      exact ⟨q, hq1, by simpa using hq2, heq.symm⟩
  · intro hall
    have hnil : ps.filter (fun p => p.direction == d) = [] := by
      rw [List.filter_eq_nil_iff]
      intro p hp
      simp [hall p hp]
    rw [hnil]
    rfl

/-- Every pin measures innerWidth 55 under mTest. -/
lemma innerWidth_mTest (p : Pin) : Pin.innerWidth mTest p = 55 := by
  have h : kTextPadding + (mTest p.name).width = ((55 : ℤ) : ℚ) := by
    norm_num [kTextPadding, mTest]
  unfold Pin.innerWidth
  rw [h, double2int_intCast]

/-- Every pin measures outerWidth 70 under mTest. -/
lemma outerWidth_mTest (p : Pin) : Pin.outerWidth mTest p = 70 := by
  have h : kStemLength + kTextPadding + (mTest p.type).width = ((70 : ℤ) : ℚ) := by
    norm_num [kStemLength, kTextPadding, mTest]
  unfold Pin.outerWidth
  rw [h, double2int_intCast]

/-- The reference line height under mTest is 11. -/
lemma pinHeight_mTest : Pin.height mTest = 11 := by
  have h : (mTest ("Hello world")).height = ((11 : ℤ) : ℚ) := by
    norm_num [mTest]
  unfold Pin.height
  rw [h, double2int_intCast]

lemma minInner_secOne : Section.minInnerWidth mTest secOne = 65 := by
  rw [minInnerWidth_eq]
  have h1 : secOne.pins.filter (fun p => p.direction == PinDirection.IN) = secOne.pins := rfl
  have h2 : secOne.pins.filter (fun p => p.direction == PinDirection.OUT) = [] := rfl
  rw [h1, h2]
  simp [secOne, innerWidth_mTest, foldMax]

lemma minOuter_secOne : Section.minOuterWidth mTest secOne = 70 := by
  rw [minOuterWidth_eq]
  simp [secOne, outerWidth_mTest, foldMax]

lemma minInner_secTwo : Section.minInnerWidth mTest secTwo = 10 := by
  rw [minInnerWidth_eq]
  rfl

lemma minOuter_secTwo : Section.minOuterWidth mTest secTwo = 0 := rfl

lemma symbolWidths_symTwo : symbolWidths mTest symTwo = (65, 70) := by
  rw [symbolWidths_eq]
  have h1 : symTwo.sections.map (Section.minInnerWidth mTest) = [65, 10] := by
    simp [symTwo, minInner_secOne, minInner_secTwo]
  have h2 : symTwo.sections.map (Section.minOuterWidth mTest) = [70, 0] := by
    simp [symTwo, minOuter_secOne, minOuter_secTwo]
  rw [h1, h2]
  rfl

lemma height_secOne : Section.height mTest secOne = 31 := by
  have h1 : secOne.rows = 1 := by decide
  rw [height_eq, h1, pinHeight_mTest]
  norm_num

lemma height_secTwo : Section.height mTest secTwo = 15 := by
  have h0 : secTwo.rows = 0 := by decide
  rw [height_eq, h0, pinHeight_mTest]
  norm_num

/-- The two border rectangles stroked when drawing the two-section
fixture: identical x, top and width, and the individual heights. -/
lemma rectOps_symTwo_eval :
    rectOps (Symbol.draw mTest symTwo) = [(70, 16, 65, 31), (70, 16, 65, 15)] := by
  rw [rectOps_symbol, symbolWidths_symTwo]
  have hsec : symTwo.sections = [secOne, secTwo] := rfl
  rw [hsec]
  simp only [List.map_cons, List.map_nil, height_secOne, height_secTwo]
  norm_num [symTwo, mTest, kNameSpacing]

/-- C1, claim refuted at a concrete input: in Symbol::draw the section
rectangles are NOT stacked.  For the two-section fixture, both border
rectangles are stroked at top 16 (the measured name height 11 plus
kNameSpacing 5), while the claim predicts the second top to be the
first top plus the first section height 31; 16 differs from 16 + 31. -/
theorem C1_stacking_counterexample :
    rectOps (Symbol.draw mTest symTwo) = [(70, 16, 65, 31), (70, 16, 65, 15)]
      ∧ (Section.height mTest secOne : ℚ) = 31
      ∧ ¬ ((16 : ℚ) = 16 + 31) := by
  refine ⟨rectOps_symTwo_eval, ?_, by norm_num⟩
  rw [height_secOne]
  norm_num

/-- C1 amended: Symbol::draw strokes one border rectangle per section,
in order, every one at the SAME top, namely the measured height of the
symbol name plus kNameSpacing (the y position is not advanced between
sections, so they are not stacked), and each at x = the computed
outerWidth, width = the computed innerWidth and height = the section
own height(). -/
theorem C1_sections_share_top (m : Measure) (sym : Symbol) :
    rectOps (Symbol.draw m sym) =
      sym.sections.map (fun s =>
        (((symbolWidths m sym).2 : ℚ), (m sym.name).height + kNameSpacing,
          ((symbolWidths m sym).1 : ℚ), ((Section.height m s : ℤ) : ℚ))) :=
  rectOps_symbol m sym

/-- C2: Section::rows is the larger of the IN-pin count and the
non-IN-pin count, Section::height is kPinSpacing*(rows-1) +
rows*Pin::height + 2*kTopBottomPadding (as integers: 5, the measured
reference line height, 10), and for the section of main() holding
i_foo(IN), o_bar(OUT), i_foobar(IN), i_barfoo(IN) the row count is 3
and the height is 5*2 + 3*Pin::height + 2*10. -/
theorem C2_rows_and_height (m : Measure) (s : Section) :
    s.rows = max ((s.pins.countP (fun p => p.direction == PinDirection.IN) : ℤ))
        ((s.pins.countP (fun p => p.direction != PinDirection.IN) : ℤ))
      ∧ Section.height m s = 5 * (s.rows - 1) + s.rows * Pin.height m + 2 * 10
      ∧ mainSection.rows = 3
      ∧ Section.height m mainSection = 5 * 2 + 3 * Pin.height m + 2 * 10 := by
  refine ⟨rows_eq_counts s, ?_, by decide, ?_⟩
  · rw [height_eq]
    ring
  · rw [height_eq]
    have h3 : mainSection.rows = 3 := by decide
    rw [h3]
    ring

/-- C6: for a section with no pins, rows() is 0 and height() evaluates
to 5*(0-1) + 0 + 20 = 15, which is not negative (and, being an integer
computation, cannot be NaN). -/
theorem C6_empty_section_height (m : Measure) (s : Section)
    (hempty : s.pins = []) :
    Section.height m s = 15 ∧ 0 ≤ Section.height m s := by
  have hrows : s.rows = 0 := by
    unfold Section.rows
    rw [hempty]
    rfl
  rw [height_eq, hrows]
  norm_num

/-- C6 witness: the empty fixture section has height 15. -/
theorem C6_empty_section_height_witness :
    Section.height mTest secTwo = 15 ∧ 0 ≤ Section.height mTest secTwo :=
  C6_empty_section_height mTest secTwo rfl

/-- C3: every border rectangle drawn by Symbol::draw has the same x
origin and the same width as every other: the x origin is the maximum
of minOuterWidth over the sections of the symbol and the width is the
maximum of minInnerWidth over them, each maximum an upper bound on and
attained by some section of the symbol, even when the individual
section values differ. -/
theorem C3_alignment_invariant (m : Measure) (sym : Symbol)
    (x1 y1 w1 h1 x2 y2 w2 h2 : ℚ)
    (hm1 : (x1, y1, w1, h1) ∈ rectOps (Symbol.draw m sym))
    (hm2 : (x2, y2, w2, h2) ∈ rectOps (Symbol.draw m sym)) :
    x1 = x2 ∧ w1 = w2
      ∧ (∀ s ∈ sym.sections, ((Section.minOuterWidth m s : ℤ) : ℚ) ≤ x1
          ∧ ((Section.minInnerWidth m s : ℤ) : ℚ) ≤ w1)
      ∧ (∃ s ∈ sym.sections, x1 = ((Section.minOuterWidth m s : ℤ) : ℚ))
      ∧ (∃ s ∈ sym.sections, w1 = ((Section.minInnerWidth m s : ℤ) : ℚ)) := by
  rw [rectOps_symbol] at hm1 hm2
  obtain ⟨s1, hs1, he1⟩ := List.mem_map.mp hm1
  obtain ⟨s2, hs2, he2⟩ := List.mem_map.mp hm2
  simp only [Prod.mk.injEq] at he1 he2
  obtain ⟨hx1, -, hw1, -⟩ := he1
  obtain ⟨hx2, -, hw2, -⟩ := he2
  have hiw : (symbolWidths m sym).1
      = foldMax (sym.sections.map (Section.minInnerWidth m)) 0 := by
    rw [symbolWidths_eq]
  have how : (symbolWidths m sym).2
      = foldMax (sym.sections.map (Section.minOuterWidth m)) 0 := by
    rw [symbolWidths_eq]
  refine ⟨by rw [← hx1, ← hx2], by rw [← hw1, ← hw2], ?_, ?_, ?_⟩
  · intro s hs
    constructor
    · rw [← hx1, how]
      exact_mod_cast le_foldMax _ 0 _ (List.mem_map_of_mem _ hs)
    · rw [← hw1, hiw]
      exact_mod_cast le_foldMax _ 0 _ (List.mem_map_of_mem _ hs)
  · rcases List.mem_cons.mp
        (foldMax_mem (sym.sections.map (Section.minOuterWidth m)) 0) with h0 | hmem
    · refine ⟨s1, hs1, ?_⟩
      have hle : Section.minOuterWidth m s1
          ≤ foldMax (sym.sections.map (Section.minOuterWidth m)) 0 :=
        le_foldMax _ 0 _ (List.mem_map_of_mem _ hs1)
      have hge := minOuterWidth_nonneg m s1
      rw [← hx1, how]
      exact_mod_cast (by omega :
        foldMax (sym.sections.map (Section.minOuterWidth m)) 0 = Section.minOuterWidth m s1)
    · obtain ⟨s0, hs0, heq⟩ := List.mem_map.mp hmem
      refine ⟨s0, hs0, ?_⟩
      rw [← hx1, how, ← heq]
  · rcases List.mem_cons.mp
        (foldMax_mem (sym.sections.map (Section.minInnerWidth m)) 0) with h0 | hmem
    · refine ⟨s1, hs1, ?_⟩
      have hle : Section.minInnerWidth m s1
          ≤ foldMax (sym.sections.map (Section.minInnerWidth m)) 0 :=
        le_foldMax _ 0 _ (List.mem_map_of_mem _ hs1)
      have hge := minInnerWidth_nonneg m s1
      rw [← hw1, hiw]
      exact_mod_cast (by omega :
        foldMax (sym.sections.map (Section.minInnerWidth m)) 0 = Section.minInnerWidth m s1)
    · obtain ⟨s0, hs0, heq⟩ := List.mem_map.mp hmem
      refine ⟨s0, hs0, ?_⟩
      rw [← hw1, hiw, ← heq]

/-- C3 witness: the two-section fixture, whose sections have different
minInnerWidth (65 vs 10) and minOuterWidth (70 vs 0), still draws both
borders at x = 70 with width 65. -/
theorem C3_alignment_invariant_witness :
    (70 : ℚ) = 70 ∧ (65 : ℚ) = 65
      ∧ (∀ s ∈ symTwo.sections, ((Section.minOuterWidth mTest s : ℤ) : ℚ) ≤ 70
          ∧ ((Section.minInnerWidth mTest s : ℤ) : ℚ) ≤ 65)
      ∧ (∃ s ∈ symTwo.sections, (70 : ℚ) = ((Section.minOuterWidth mTest s : ℤ) : ℚ))
      ∧ (∃ s ∈ symTwo.sections, (65 : ℚ) = ((Section.minInnerWidth mTest s : ℤ) : ℚ)) :=
  C3_alignment_invariant mTest symTwo 70 16 65 31 70 16 65 15
    (by rw [rectOps_symTwo_eval]; exact List.mem_cons_self _ _)
    (by rw [rectOps_symTwo_eval]; exact List.mem_cons_of_mem _ (List.mem_cons_self _ _))

/-- C4: Section::minInnerWidth is L + kTextSeparator + R where L is
the largest innerWidth among the IN pins (0 when there are none) and R
is the largest innerWidth among the strictly-OUT pins (0 when there
are none); pins with direction INOUT contribute to neither maximum. -/
theorem C4_minInnerWidth_maxima (m : Measure) (s : Section)
    (hw : ∀ str, 0 ≤ (m str).width) :
    ∃ L R : ℤ,
      Section.minInnerWidth m s = L + 10 + R
        ∧ (∀ p ∈ s.pins, p.direction = PinDirection.IN → Pin.innerWidth m p ≤ L)
        ∧ ((∃ p ∈ s.pins, p.direction = PinDirection.IN) →
            ∃ p ∈ s.pins, p.direction = PinDirection.IN ∧ L = Pin.innerWidth m p)
        ∧ ((∀ p ∈ s.pins, p.direction ≠ PinDirection.IN) → L = 0)
        ∧ (∀ p ∈ s.pins, p.direction = PinDirection.OUT → Pin.innerWidth m p ≤ R)
        ∧ ((∃ p ∈ s.pins, p.direction = PinDirection.OUT) →
            ∃ p ∈ s.pins, p.direction = PinDirection.OUT ∧ R = Pin.innerWidth m p)
        ∧ ((∀ p ∈ s.pins, p.direction ≠ PinDirection.OUT) → R = 0) := by
  obtain ⟨hb1, ha1, hz1⟩ := column_foldMax_spec m s.pins PinDirection.IN hw
  obtain ⟨hb2, ha2, hz2⟩ := column_foldMax_spec m s.pins PinDirection.OUT hw
  refine ⟨_, _, minInnerWidth_eq m s, hb1, ?_, hz1, hb2, ?_, hz2⟩
  · intro h
    obtain ⟨p, hp, hpd, heq⟩ := ha1 h
    exact ⟨p, hp, hpd, heq⟩
  · intro h
    obtain ⟨p, hp, hpd, heq⟩ := ha2 h
    exact ⟨p, hp, hpd, heq⟩

/-- C4 witness: the maxima decomposition at the section of main()
under the concrete backend. -/
theorem C4_minInnerWidth_maxima_witness :
    ∃ L R : ℤ,
      Section.minInnerWidth mTest mainSection = L + 10 + R
        ∧ (∀ p ∈ mainSection.pins, p.direction = PinDirection.IN →
            Pin.innerWidth mTest p ≤ L)
        ∧ ((∃ p ∈ mainSection.pins, p.direction = PinDirection.IN) →
            ∃ p ∈ mainSection.pins, p.direction = PinDirection.IN
              ∧ L = Pin.innerWidth mTest p)
        ∧ ((∀ p ∈ mainSection.pins, p.direction ≠ PinDirection.IN) → L = 0)
        ∧ (∀ p ∈ mainSection.pins, p.direction = PinDirection.OUT →
            Pin.innerWidth mTest p ≤ R)
        ∧ ((∃ p ∈ mainSection.pins, p.direction = PinDirection.OUT) →
            ∃ p ∈ mainSection.pins, p.direction = PinDirection.OUT
              ∧ R = Pin.innerWidth mTest p)
        ∧ ((∀ p ∈ mainSection.pins, p.direction ≠ PinDirection.OUT) → R = 0) :=
  C4_minInnerWidth_maxima mTest mainSection (fun str => by norm_num [mTest])

/-- C5: the names rendered by Section::draw are the IN pins in stored
order followed by the remaining pins in stored order (stable
partition); for a section holding A(IN), B(OUT), C(IN), D(OUT) the
black name paints are A then C in the left column (at x + kTextPadding,
rows 1 and 2) and B then D in the right column (ending kTextPadding
left of x + width, rows 1 and 2). -/
theorem C5_stable_partition (m : Measure) (s : Section) (pos : Rectangle)
    (A B C D : Pin) (nm : String)
    (hA : A.direction = PinDirection.IN) (hB : B.direction = PinDirection.OUT)
    (hC : C.direction = PinDirection.IN) (hD : D.direction = PinDirection.OUT) :
    drawnNames (Section.draw m s pos) =
        ((s.pins.filter (fun p => p.direction == PinDirection.IN)).map Pin.name)
          ++ ((s.pins.filter (fun p => p.direction != PinDirection.IN)).map Pin.name)
      ∧ nameTexts (Section.draw m (Section.mk [A, B, C, D] nm) pos) =
        [ (pos.x + kTextPadding,
            pos.y + kTopBottomPadding + ((Pin.height m : ℤ) : ℚ), A.name),
          (pos.x + kTextPadding,
            pos.y + kTopBottomPadding + ((Pin.height m : ℤ) : ℚ) + kPinSpacing
              + ((Pin.height m : ℤ) : ℚ), C.name),
          (pos.x + pos.width - kTextPadding - (m B.name).width,
            pos.y + kTopBottomPadding + ((Pin.height m : ℤ) : ℚ), B.name),
          (pos.x + pos.width - kTextPadding - (m D.name).width,
            pos.y + kTopBottomPadding + ((Pin.height m : ℤ) : ℚ) + kPinSpacing
              + ((Pin.height m : ℤ) : ℚ), D.name) ] := by
  constructor
  · exact drawnNames_section m s pos
  · have e1 : (PinDirection.OUT == PinDirection.IN) = false := rfl
    have e2 : (PinDirection.OUT != PinDirection.IN) = true := rfl
    have e3 : (PinDirection.IN != PinDirection.IN) = false := rfl
    have hfl : ([A, B, C, D].filter (fun p => p.direction == PinDirection.IN)) = [A, C] := by
      simp [List.filter_cons, hA, hB, hC, hD, e1]
    have hfr : ([A, B, C, D].filter (fun p => p.direction != PinDirection.IN)) = [B, D] := by
      simp [List.filter_cons, hA, hB, hC, hD, e2, e3]
    unfold Section.draw
    dsimp only
    rw [hfl, hfr]
    simp [drawPins, nameTexts, nameTexts_append, nameTexts_pin, hA, hB, hC, hD]

/-- C5 witness: the concrete A(IN), B(OUT), C(IN), D(OUT) section. -/
theorem C5_stable_partition_witness :
    drawnNames (Section.draw mTest secABCD ⟨0, 0, 100, 50⟩) = ["pa", "pc", "pb", "pd"]
      ∧ nameTexts (Section.draw mTest (Section.mk [pinA, pinB, pinC, pinD] "") ⟨0, 0, 100, 50⟩)
        = [(5, 21, "pa"), (5, 37, "pc"), (45, 21, "pb"), (45, 37, "pd")] := by
  have h := C5_stable_partition mTest secABCD ⟨0, 0, 100, 50⟩ pinA pinB pinC pinD ("")
    rfl rfl rfl rfl
  constructor
  · rw [h.1]
    rfl
  · rw [h.2, pinHeight_mTest]
    norm_num [mTest, pinA, pinB, pinC, pinD, kTextPadding, kTopBottomPadding, kPinSpacing]

/-- C7: Pin::draw places an IN pin and an OUT pin with the same name,
type and bus flag as exact mirror images about the anchor x: the IN
name starts kTextPadding right of the anchor while the OUT name ends
kTextPadding left of it, the stems run kStemLength in opposite
directions with the same width, and the type labels sit at the anchor
minus respectively plus kTextPadding + kStemLength, growing away from
the anchor; the whole OUT trace is the pointwise reflection of the IN
trace. -/
theorem C7_mirror_symmetry (m : Measure) (n t : String) (b : Bool) (pos : Rectangle) :
    Pin.draw m ⟨PinDirection.IN, n, t, b⟩ pos =
      [ DrawOp.showText 0 0 0 (pos.x + kTextPadding) pos.y n,
        DrawOp.line pos.x (pos.y + (m n).y_bearing / 2) (pos.x - kStemLength)
          (pos.y + (m n).y_bearing / 2) (if b then kBusStemWidth else kWireStemWidth),
        DrawOp.showText (1/2) (1/2) (1/2)
          (pos.x - kTextPadding - kStemLength - (m t).width) pos.y t ]
      ∧ Pin.draw m ⟨PinDirection.OUT, n, t, b⟩ pos =
        [ DrawOp.showText 0 0 0 (pos.x - kTextPadding - (m n).width) pos.y n,
          DrawOp.line pos.x (pos.y + (m n).y_bearing / 2) (pos.x + kStemLength)
            (pos.y + (m n).y_bearing / 2) (if b then kBusStemWidth else kWireStemWidth),
          DrawOp.showText (1/2) (1/2) (1/2)
            (pos.x + kTextPadding + kStemLength) pos.y t ]
      ∧ Pin.draw m ⟨PinDirection.OUT, n, t, b⟩ pos
        = (Pin.draw m ⟨PinDirection.IN, n, t, b⟩ pos).map (mirrorOp pos.x m) := by
  refine ⟨rfl, rfl, ?_⟩
  show Pin.draw m ⟨PinDirection.OUT, n, t, b⟩ pos
    = ([ DrawOp.showText 0 0 0 (pos.x + kTextPadding) pos.y n,
        DrawOp.line pos.x (pos.y + (m n).y_bearing / 2) (pos.x - kStemLength)
          (pos.y + (m n).y_bearing / 2) (if b then kBusStemWidth else kWireStemWidth),
        DrawOp.showText (1/2) (1/2) (1/2)
          (pos.x - kTextPadding - kStemLength - (m t).width) pos.y t ]).map (mirrorOp pos.x m)
  show ([ DrawOp.showText 0 0 0 (pos.x - kTextPadding - (m n).width) pos.y n,
        DrawOp.line pos.x (pos.y + (m n).y_bearing / 2) (pos.x + kStemLength)
          (pos.y + (m n).y_bearing / 2) (if b then kBusStemWidth else kWireStemWidth),
        DrawOp.showText (1/2) (1/2) (1/2)
          (pos.x + kTextPadding + kStemLength) pos.y t ] : List DrawOp) = _
  simp only [List.map_cons, List.map_nil, mirrorOp]
  refine congrArg₂ _ ?_ (congrArg₂ _ ?_ (congrArg₂ _ ?_ rfl))
  · rw [DrawOp.showText.injEq]
    refine ⟨rfl, rfl, rfl, by ring, rfl, rfl⟩
  · rw [DrawOp.line.injEq]
    refine ⟨by ring, rfl, by ring, rfl, rfl⟩
  · rw [DrawOp.showText.injEq]
    refine ⟨rfl, rfl, rfl, by ring, rfl, rfl⟩

/-- C8: Section::height never decreases when a pin is added through
Section::addPin (for any direction of the added pin, in particular for
a fixed column distribution), and it depends only on the two column
counts, not on the order the pins were added. -/
theorem C8_height_monotone_order_invariant (m : Measure) (s s2 : Section) (p : Pin)
    (hh : 0 ≤ (m ("Hello world")).height) :
    Section.height m s ≤ Section.height m (s.addPin p)
      ∧ ((s.pins.countP (fun q => q.direction == PinDirection.IN)
            = s2.pins.countP (fun q => q.direction == PinDirection.IN)
          ∧ s.pins.countP (fun q => q.direction != PinDirection.IN)
            = s2.pins.countP (fun q => q.direction != PinDirection.IN)) →
          Section.height m s = Section.height m s2) := by
  have hH : 0 ≤ Pin.height m := double2int_nonneg _ hh
  constructor
  · have hrows : s.rows ≤ (s.addPin p).rows := by
      rw [rows_eq_counts, rows_eq_counts]
      unfold Section.addPin
      dsimp only
      rw [List.countP_append, List.countP_append]
      refine max_le_max ?_ ?_ <;> push_cast <;> omega
    rw [height_eq, height_eq]
    have hm := mul_le_mul_of_nonneg_right hrows hH
    linarith
  · rintro ⟨hc1, hc2⟩
    rw [height_eq, height_eq, rows_eq_counts, rows_eq_counts, hc1, hc2]

/-- C8 witness: adding o_bar to the empty section does not decrease the
height, and two sections with equal column counts have equal height. -/
theorem C8_height_monotone_order_invariant_witness :
    Section.height mTest secTwo ≤ Section.height mTest (secTwo.addPin pinBar)
      ∧ ((secTwo.pins.countP (fun q => q.direction == PinDirection.IN)
            = (Section.mk [] "x").pins.countP (fun q => q.direction == PinDirection.IN)
          ∧ secTwo.pins.countP (fun q => q.direction != PinDirection.IN)
            = (Section.mk [] "x").pins.countP (fun q => q.direction != PinDirection.IN)) →
          Section.height mTest secTwo = Section.height mTest (Section.mk [] "x")) :=
  C8_height_monotone_order_invariant mTest secTwo (Section.mk [] "x") pinBar
    (by norm_num [mTest])

/-- C9: with a backend measuring the empty string at width 0, a pin
whose type is empty has outerWidth = kStemLength + kTextPadding and its
draw still paints the name (the only black text) and strokes exactly
one stem line; symmetrically a pin whose name is empty has
innerWidth = kTextPadding. -/
theorem C9_empty_text_widths (m : Measure) (p : Pin) (pos : Rectangle)
    (hw : (m ("")).width = 0) :
    (p.type = "" → Pin.outerWidth m p = 15 + 5
        ∧ drawnNames (Pin.draw m p pos) = [p.name]
        ∧ (Pin.draw m p pos).countP isLine = 1)
      ∧ (p.name = "" → Pin.innerWidth m p = 5) := by
  constructor
  · intro ht
    refine ⟨?_, ?_, countLine_pin m p pos⟩
    · unfold Pin.outerWidth
      rw [ht, hw]
      have h : kStemLength + kTextPadding + 0 = ((20 : ℤ) : ℚ) := by
        norm_num [kStemLength, kTextPadding]
      rw [h, double2int_intCast]
      norm_num
    · unfold drawnNames
      rw [nameTexts_pin]
      rfl
  · intro hn
    unfold Pin.innerWidth
    rw [hn, hw]
    have h : kTextPadding + 0 = ((5 : ℤ) : ℚ) := by
      norm_num [kTextPadding]
    rw [h, double2int_intCast]

/-- C9 witness: the pin with empty name and empty type under the
zero-width backend. -/
theorem C9_empty_text_widths_witness :
    Pin.outerWidth mZero pinEmpty = 15 + 5
      ∧ drawnNames (Pin.draw mZero pinEmpty ⟨0, 0, 0, 0⟩) = [pinEmpty.name]
      ∧ (Pin.draw mZero pinEmpty ⟨0, 0, 0, 0⟩).countP isLine = 1
      ∧ Pin.innerWidth mZero pinEmpty = 5 := by
  obtain ⟨h1, h2⟩ := C9_empty_text_widths mZero pinEmpty ⟨0, 0, 0, 0⟩ rfl
  obtain ⟨ha, hb, hc⟩ := h1 rfl
  exact ⟨ha, hb, hc, h2 rfl⟩

/-- C10: Section::draw reads the height of its rectangle only for the
border stroke: the head of the trace is the border rectangle carrying
the given height, and the rest of the trace (every pin primitive, in
number, order and position) is identical for two rectangles that differ
only in their height field. -/
theorem C10_height_only_border (m : Measure) (s : Section)
    (x y w h1 h2 : ℚ) :
    (Section.draw m s ⟨x, y, w, h1⟩).head? = some (DrawOp.strokeRect x y w h1)
      ∧ (Section.draw m s ⟨x, y, w, h1⟩).tail
        = (Section.draw m s ⟨x, y, w, h2⟩).tail :=
  ⟨rfl, rfl⟩

end CairoSymbol
